import Mathlib

/-!
Verification of the ua2idl type-dependency resolver and IDL emitter.

The definitions below are a shallow embedding of `src/ua2idl.py`:
- the fixed name lists (`builtin_types`, `skip_types`, `idl_keywords`),
- the identifier sanitizer `protected_identifier`,
- the type model (`Ty`, mirroring BuiltinType / EnumerationType /
  OpaqueType / StructType and StructMember),
- the resolver (`parseEnumeration`, `parseStructured`, `processRecord`,
  `runPass`, `resolveAux` for the fixpoint `while` loop of
  `parseTypeDefinitions`, with explicit fuel since the Python loop can
  diverge),
- the declaration emitter (`typedefIdl` and `emitBody` for the
  final `for name, t in types.iteritems()` loop).

The registry (Python `OrderedDict`) is embedded as an association list
with `odInsert` implementing the OrderedDict assignment semantics:
an existing key keeps its position and has its value replaced, a fresh
key is appended at the end.
-/

def builtin_types : List String :=
  ["Boolean", "SByte", "Byte", "Int16", "UInt16",
   "Int32", "UInt32", "Int64", "UInt64", "Float",
   "Double", "String", "DateTime", "Guid", "ByteString",
   "XmlElement", "NodeId", "ExpandedNodeId", "StatusCode",
   "QualifiedName", "LocalizedText", "ExtensionObject", "DataValue",
   "Variant", "DiagnosticInfo"]

def skip_types : List String :=
  ["FilterOperand", "HistoryReadDetails", "MonitoringFilter",
   "MonitoringFilterResult", "NotificationData"]

def idl_keywords : List String :=
  ["abstract", "exception", "inout", "provides", "truncatable",
   "any", "emits", "interface", "public", "typedef", "attribute",
   "enum", "local", "publishes", "typeid", "boolean", "eventtype",
   "long", "raises", "typeprefix", "case", "factory", "module", "readonly",
   "unsigned", "char", "FALSE", "multiple", "setraises", "union", "component",
   "finder", "native", "sequence", "uses", "const", "fixed", "Object", "short",
   "ValueBase", "consumes", "float", "octet", "string", "valuetype", "context",
   "getraises", "oneway", "struct", "void", "custom", "home", "out", "supports",
   "wchar", "default", "import", "primarykey", "switch", "wstring", "double", "in",
   "private", "TRUE"]

def protected_identifier (s : String) : String :=
  if s ∈ idl_keywords then "_" ++ s else s

/-- Python substring test (`"Test" in name`) on character lists. -/
def hasInfixAux (pat : List Char) : List Char → Bool
  | [] => pat.isEmpty
  | c :: rest => pat.isPrefixOf (c :: rest) || hasInfixAux pat rest

def strContainsSub (s pat : String) : Bool :=
  hasInfixAux pat.data s.data

/-- The regex test `re.search("NodeId$", name) != None` amounts to a suffix test. -/
def strEndsWith (s pat : String) : Bool :=
  pat.data.reverse.isPrefixOf s.data.reverse

/-- The skip predicate `skipType` from `parseTypeDefinitions`. -/
def skipType (name : String) : Bool :=
  if name ∈ builtin_types then true
  else if name ∈ skip_types then true
  else if strContainsSub name "Test" then true
  else if strEndsWith name "NodeId" then true
  else false

/-- Namespace stripping `tn[tn.find(":")+1:]` keeps everything after the
first colon, or the whole string when there is no colon. -/
def dropThroughColon : List Char → Option (List Char)
  | [] => none
  | c :: rest => if c = ':' then some rest else dropThroughColon rest

def stripTypename (tn : String) : String :=
  match dropThroughColon tn.data with
  | none => tn
  | some cs => String.mk cs

/-- Python truthiness of an optional XML attribute: absent or empty is falsy. -/
def truthyAttr : Option String → Bool
  | none => false
  | some s => !s.isEmpty

/-- A `Field` child of a StructuredType record: the `Name`, `TypeName`
and optional `LengthField` attributes. -/
structure SField where
  name : String
  typeName : String
  lengthField : Option String
deriving DecidableEq, Repr

/-- One raw schema record (an element of `typeSnippets`). -/
inductive SchemaRec where
  | enumeratedType (name description : String) (elements : List (String × String))
  | opaqueType (name description : String)
  | structuredType (name description : String) (fields : List SField)
deriving DecidableEq, Repr

def SchemaRec.recName : SchemaRec → String
  | .enumeratedType n _ _ => n
  | .opaqueType n _ => n
  | .structuredType n _ _ => n

/-- The type model: BuiltinType, EnumerationType, OpaqueType, StructType.
A StructType's members are the OrderedDict mapping the raw member name
to its StructMember. -/
inductive Ty where
  | builtin (name : String)
  | enumeration (name description : String) (elements : List (String × String))
  | opaqueType (name description : String)
  | structured (name description : String) (members : List (String × String × Ty × Bool))

/-- A StructMember value: sanitized member name, the member Type object,
and the isArray flag.  (`protected_identifier` applied to the member
type in the Python constructor is the identity there, since a Type
object is never an element of the string list `idl_keywords`.) -/
abbrev SMember := String × Ty × Bool

def tyName : Ty → String
  | .builtin n => n
  | .enumeration n _ _ => n
  | .opaqueType n _ => n
  | .structured n _ _ => n

abbrev Registry := List (String × Ty)

/-- OrderedDict assignment `d[k] = v`: replace in place or append. -/
def odInsert {α : Type} (m : List (String × α)) (k : String) (v : α) : List (String × α) :=
  if (m.lookup k).isSome then m.map (fun p => if p.1 = k then (k, v) else p)
  else m ++ [(k, v)]

def keys {α : Type} (m : List (String × α)) : List String := m.map Prod.fst

/-- The registry seeded with the builtin types. -/
def seedTypes : Registry :=
  builtin_types.foldl (fun acc t => odInsert acc t (Ty.builtin t)) []

/-- The element dict of `parseEnumeration` maps `Name_ElementName`
(qualified with the raw record name) to the value string; the
EnumerationType constructor sanitizes the type name. -/
def enumElems (name : String) (elements : List (String × String)) : List (String × String) :=
  elements.foldl (fun acc e => odInsert acc (name ++ "_" ++ e.1) e.2) []

def parseEnumeration (name description : String) (elements : List (String × String)) : Ty :=
  Ty.enumeration (protected_identifier name) description (enumElems name elements)

/-- The `lengthfields` list collected before building the member dict:
every truthy `LengthField` attribute value, in field order. -/
def lengthFieldRefs (fields : List SField) : List String :=
  fields.filterMap (fun f =>
    match f.lengthField with
    | some s => if s.isEmpty then none else some s
    | none => none)

/-- The member-building loop of `parseStructured`: skip length-field
holders, fail (`return None`) on the first unresolved member type,
otherwise insert the StructMember into the member OrderedDict. -/
def parseMembers (types : Registry) (lfs : List String) :
    List SField → List (String × SMember) → Option (List (String × SMember))
  | [], acc => some acc
  | f :: rest, acc =>
    if f.name ∈ lfs then parseMembers types lfs rest acc
    else
      match types.lookup (stripTypename f.typeName) with
      | none => none
      | some mt =>
          parseMembers types lfs rest
            (odInsert acc f.name (protected_identifier f.name, mt, truthyAttr f.lengthField))

def parseStructured (name description : String) (fields : List SField) (types : Registry) :
    Option Ty :=
  (parseMembers types (lengthFieldRefs fields) fields []).map
    (fun ms => Ty.structured (protected_identifier name) description ms)

/-- The body of the fixpoint loop for one record: skip if already present
or excluded, otherwise parse and insert under `t.name`; a deferred
structured record clears `finished`. -/
def processRecord (types : Registry) (finished : Bool) (r : SchemaRec) : Registry × Bool :=
  if (types.lookup r.recName).isSome || skipType r.recName then (types, finished)
  else
    match r with
    | .enumeratedType n d els =>
        let t := parseEnumeration n d els
        (odInsert types (tyName t) t, finished)
    | .opaqueType n d =>
        let t := Ty.opaqueType n d
        (odInsert types (tyName t) t, finished)
    | .structuredType n d fields =>
        match parseStructured n d fields types with
        | none => (types, false)
        | some t => (odInsert types (tyName t) t, finished)

def passStep (acc : Registry × Bool) (r : SchemaRec) : Registry × Bool :=
  processRecord acc.1 acc.2 r

/-- One full pass of the `while` loop (`finished` starts at `True`). -/
def runPass (records : List SchemaRec) (types : Registry) : Registry × Bool :=
  records.foldl passStep (types, true)

/-- The fixpoint loop (`while not finished`), with explicit fuel: `none` means the
Python loop has not terminated within `fuel` passes. -/
def resolveAux : Nat → List SchemaRec → Registry → Option Registry
  | 0, _, _ => none
  | Nat.succ fuel, records, types =>
      let p := runPass records types
      if p.2 then some p.1 else resolveAux fuel records p.1

/-- The resolver `parseTypeDefinitions`, starting from the builtin-seeded registry. -/
def parseTypeDefinitions (records : List SchemaRec) (fuel : Nat) : Option Registry :=
  resolveAux fuel records seedTypes

/-- String concatenation of a rendered line per list element (used to
relate the Python `+=` accumulation loops to per-element renderings). -/
def concatMapStr {α : Type} (g : α → String) : List α → String
  | [] => ""
  | x :: rest => g x ++ concatMapStr g rest

/-- The member line of `StructType.typedef_idl`. -/
def memberLine (m : String × SMember) : String :=
  if m.2.2.2 then "\t\tListOf" ++ tyName m.2.2.1 ++ " " ++ m.2.1 ++ ";\n"
  else "\t\t" ++ tyName m.2.2.1 ++ " " ++ m.2.1 ++ ";\n"

/-- Declaration text `typedef_idl` for each variant.  `Type.typedef_idl` (inherited by
BuiltinType) is Python `pass`, i.e. returns `None`. -/
def typedefIdl : Ty → Option String
  | .builtin _ => none
  | .enumeration n _ els =>
      some (((("\tenum " ++ n ++ " \x7b\n")).append
        (els.foldl (fun acc e => acc ++ "\t\t" ++ protected_identifier e.1 ++ ", \n") "")
        |>.dropRight 3) ++ "\n\t\x7d;")
  | .opaqueType n _ =>
      some ("\ttypedef ByteString " ++ protected_identifier n ++ ";")
  | .structured n _ ms =>
      some ("\t struct " ++ n ++ " \x7b\n" ++
        ms.foldl (fun acc m => acc ++ memberLine m) "" ++ "\t\x7d;")

/-- Python `print` of a `typedef_idl` result (`print(None)` writes "None";
that case is unreachable for non-builtin registry entries). -/
def optPrint : Option String → String
  | none => "None"
  | some s => s

/-- The emitter loop after the static prelude: for every non-builtin
registry entry, in registry order, print the declaration and the
synthesized ListOf wrapper (each `printidl` appends a newline). -/
def emitBody (types : Registry) : String :=
  types.foldl (fun acc p =>
    if p.1 ∈ builtin_types then acc
    else acc ++ optPrint (typedefIdl p.2) ++ "\n" ++
      "\tunion ListOf" ++ p.1 ++ " switch(boolean) \x7b case true: sequence<" ++
      p.1 ++ "> Content; \x7d;\n" ++ "\n") ""

/-- The member-type names referenced by a registry value. -/
def memberTypeNames : Ty → List String
  | .structured _ _ ms => ms.map (fun m => tyName m.2.2.1)
  | _ => []

/-- Topological-order check: front to back, every member-type name of a
structured entry must already have been seen as an earlier key. -/
def ordOKb : List String → Registry → Bool
  | _, [] => true
  | seen, p :: rest =>
      (memberTypeNames p.2).all (fun n => seen.contains n) && ordOKb (p.1 :: seen) rest

/-- Every registry value carries exactly its key as its `name`. -/
def keysMatchb (types : Registry) : Bool :=
  types.all (fun p => tyName p.2 == p.1)

/-- The key under which the loop inserts a record's parsed type
(`types[t.name] = t`). -/
def insertKey : SchemaRec → String
  | .enumeratedType n _ _ => protected_identifier n
  | .opaqueType n _ => n
  | .structuredType n _ _ => protected_identifier n

/-- The case labels of an emitted enum declaration: the sanitized
element-dict keys, in dict order. -/
def enumCaseLabels : Ty → List String
  | .enumeration _ _ els => els.map (fun e => protected_identifier e.1)
  | _ => []

def kwFree (records : List SchemaRec) : Prop :=
  ∀ r ∈ records, r.recName ∉ idl_keywords

/-- Every non-builtin registry key stems from a non-excluded record,
inserted under that record's `insertKey`. -/
def keyOrig (records : List SchemaRec) (t : Registry) : Prop :=
  ∀ k ∈ keys t, k ∈ builtin_types ∨
    ∃ r ∈ records, skipType r.recName = false ∧ k = insertKey r

/-! ### Concrete record sequences used in scenarios and counterexamples -/

/-- A structured record whose field references a type name absent from
the whole input. -/
def recsC2 : List SchemaRec :=
  [SchemaRec.structuredType "S" "" [⟨"F", "Missing", none⟩]]

/-- Forward-dependency scenario: B references A, A references only builtins. -/
def recsC3 : List SchemaRec :=
  [SchemaRec.structuredType "B" "" [⟨"FA", "A", none⟩],
   SchemaRec.structuredType "A" "" [⟨"X", "Int32", none⟩]]

/-- An enumeration named `_union`, then a structured record named by the
keyword `union` (sanitized to `_union`) referencing `Foo`, then `Foo`. -/
def recsC1 : List SchemaRec :=
  [SchemaRec.enumeratedType "_union" "" [],
   SchemaRec.structuredType "union" "" [⟨"F", "Foo", none⟩],
   SchemaRec.opaqueType "Foo" ""]

/-- Same shape as `recsC1`, used for the registry-stability counterexample. -/
def recsC9 : List SchemaRec :=
  [SchemaRec.enumeratedType "_union" "" [],
   SchemaRec.structuredType "union" "" [⟨"F", "Foo", none⟩],
   SchemaRec.opaqueType "Foo" ""]

/-- A single opaque record whose name is the IDL keyword `string`. -/
def recsC4 : List SchemaRec := [SchemaRec.opaqueType "string" ""]

/-- Witness input for the amended topological-order theorem. -/
def recsC1w : List SchemaRec :=
  [SchemaRec.structuredType "B" "" [⟨"FA", "A", none⟩],
   SchemaRec.structuredType "A" "" [⟨"X", "Int32", none⟩]]

/-- Witness input for the exclusion theorem. -/
def recsC5w : List SchemaRec :=
  [SchemaRec.enumeratedType "Color" "" [("Red", "0"), ("Green", "1"), ("Blue", "2")]]

/-- Witness input for the amended registry-growth theorem. -/
def recsC9w : List SchemaRec :=
  [SchemaRec.structuredType "B" "" [⟨"FA", "A", none⟩],
   SchemaRec.structuredType "A" "" [⟨"X", "Int32", none⟩]]

/-- Witness fields for the length-field theorem: `Values` repeats with
count held by `NoOfValues`. -/
def fieldsC6w : List SField :=
  [⟨"NoOfValues", "opc:Int32", none⟩, ⟨"Values", "opc:Double", some "NoOfValues"⟩]

/-- The member dict produced from `fieldsC6w` against the seeded registry. -/
def msC6w : List (String × SMember) :=
  [("Values", ("Values", Ty.builtin "Double", true))]

/-- Witness elements for the enumeration-labels theorem. -/
def elsC7w : List (String × String) := [("Red", "0"), ("Green", "1"), ("Blue", "2")]

/-! ### Helper lemmas shared by several results -/

theorem kw_not_underscore : ∀ s ∈ idl_keywords, ("_" ++ s) ∉ idl_keywords := by decide

theorem runPass_stuck : runPass recsC2 seedTypes = (seedTypes, false) := rfl

/-! ### Claim theorems (computational claims first) -/

/-- C2: on an input whose structured record references a type name that
appears nowhere in the input, the resolver loop never terminates: for
every number of passes the fixpoint loop is still running (each full
pass leaves the registry unchanged with `finished = False`).  The code
has no `SchemaReferenceError`; the claimed detection does not exist. -/
theorem C2_loops : ∀ fuel, resolveAux fuel recsC2 seedTypes = none := by
  intro fuel
  induction fuel with
  | zero => rfl
  | succ n ih => simpa [resolveAux, runPass_stuck] using ih

/-- C3: with records `[Structured "B" referencing "A", Structured "A"
with a builtin field]`, pass 1 resolves A and defers B (clearing
`finished`), pass 2 resolves B and finishes; one pass of fuel is not
enough, two passes terminate, and A sits at an earlier registry
position than B. -/
theorem C3_forward_dependency :
    ((runPass recsC3 seedTypes).1.lookup "A").isSome = true ∧
    ((runPass recsC3 seedTypes).1.lookup "B").isSome = false ∧
    (runPass recsC3 seedTypes).2 = false ∧
    ((runPass recsC3 (runPass recsC3 seedTypes).1).1.lookup "B").isSome = true ∧
    (runPass recsC3 (runPass recsC3 seedTypes).1).2 = true ∧
    resolveAux 1 recsC3 seedTypes = none ∧
    (resolveAux 2 recsC3 seedTypes).isSome = true ∧
    List.indexOf "A" (keys ((resolveAux 2 recsC3 seedTypes).getD [])) <
      List.indexOf "B" (keys ((resolveAux 2 recsC3 seedTypes).getD [])) := by
  refine ⟨rfl, rfl, rfl, rfl, rfl, rfl, rfl, ?_⟩
  decide

/-- C4: sanitization is not applied uniformly.  For a single OpaqueType
record named by the keyword `string`, the resolver terminates and the
emitter renders the typedef with the sanitized name `_string` but the
ListOf wrapper and its sequence element type with the unsanitized
registry key `string`: the same schema name is sanitized in one
occurrence and left raw in others. -/
theorem C4_partial_sanitization :
    (resolveAux 1 recsC4 seedTypes).isSome = true ∧
    protected_identifier "string" = "_string" ∧
    emitBody ((resolveAux 1 recsC4 seedTypes).getD []) =
      "\ttypedef ByteString _string;\n\tunion ListOfstring switch(boolean) \x7b case true: sequence<string> Content; \x7d;\n\n" :=
  ⟨rfl, rfl, rfl⟩

/-- C8: the identifier sanitizer is total and pure: a reserved word is
returned prefixed with `_`, which differs from the input and is itself
not reserved; any other string is returned unchanged. -/
theorem C8_sanitizer_total (s : String) :
    (s ∈ idl_keywords → protected_identifier s = "_" ++ s ∧
      protected_identifier s ≠ s ∧ protected_identifier s ∉ idl_keywords) ∧
    (s ∉ idl_keywords → protected_identifier s = s) := by
  constructor
  · intro hs
    refine ⟨by simp [protected_identifier, hs], ?_, ?_⟩
    · simp only [protected_identifier, if_pos hs]
      intro heq
      have hlen := congrArg String.length heq
      rw [String.length_append] at hlen
      have h1 : ("_" : String).length = 1 := rfl
      omega
    · simpa [protected_identifier, hs] using kw_not_underscore s hs
  · intro hs
    simp [protected_identifier, hs]

theorem C8_sanitizer_total_witness :
    (protected_identifier "string" = "_" ++ "string" ∧
      protected_identifier "string" ≠ "string" ∧
      protected_identifier "string" ∉ idl_keywords) ∧
    protected_identifier "Color" = "Color" :=
  ⟨(C8_sanitizer_total "string").1 (by decide),
   (C8_sanitizer_total "Color").2 (by decide)⟩

/-- C10: the sanitizer is idempotent, because no reserved word starts
with the escape character `_`. -/
theorem C10_idempotent (s : String) :
    protected_identifier (protected_identifier s) = protected_identifier s := by
  by_cases h : s ∈ idl_keywords
  · have h2 := kw_not_underscore s h
    simp [protected_identifier, h, h2]
  · simp [protected_identifier, h]

/-- C7 counterexample: an enumeration record with two declared elements
that share a name yields only one case label (the OrderedDict entry is
overwritten), so the emitted declaration does not contain exactly n
case labels for n declared elements. -/
theorem C7_counterexample :
    (enumCaseLabels (parseEnumeration "E" "" [("X", "0"), ("X", "1")])).length ≠
      ([("X", "0"), ("X", "1")] : List (String × String)).length := by
  decide

/-- C1 counterexample: on `recsC1` the resolver terminates after two
passes, but the structured record named by the keyword `union` is
inserted under its sanitized name `_union`, overwriting the earlier
enumeration entry in place, so its member type `Foo` sits at a later
registry position: the returned registry violates the topological-order
invariant. -/
theorem C1_counterexample :
    (resolveAux 2 recsC1 seedTypes).isSome = true ∧
    ordOKb [] ((resolveAux 2 recsC1 seedTypes).getD []) = false :=
  ⟨rfl, rfl⟩

/-- C9 counterexample: during the run on `recsC9`, the entry inserted
under the key `_union` after pass 1 (an enumeration) is replaced by a
different instance (a structured type) in pass 2, because the keyword-
named record `union` sanitizes onto the same key: the registry does not
only grow. -/
theorem C9_counterexample :
    (runPass recsC9 seedTypes).2 = false ∧
    List.lookup "_union" (runPass recsC9 seedTypes).1 =
      some (Ty.enumeration "_union" "" []) ∧
    (resolveAux 2 recsC9 seedTypes).isSome = true ∧
    List.lookup "_union" ((resolveAux 2 recsC9 seedTypes).getD []) =
      some (Ty.structured "_union" "" [("F", "F", Ty.opaqueType "Foo" "", false)]) ∧
    Ty.enumeration "_union" "" [] ≠
      Ty.structured "_union" "" [("F", "F", Ty.opaqueType "Foo" "", false)] :=
  ⟨rfl, rfl, rfl, rfl, fun h => Ty.noConfusion h⟩

/-! ### OrderedDict and lookup lemmas -/

theorem odInsert_of_fresh {α : Type} (m : List (String × α)) (k : String) (v : α)
    (h : m.lookup k = none) : odInsert m k v = m ++ [(k, v)] := by
  simp [odInsert, h]

theorem mem_odInsert {α : Type} {m : List (String × α)} {k : String} {v : α}
    {x : String × α} (hx : x ∈ odInsert m k v) : x = (k, v) ∨ x ∈ m := by
  unfold odInsert at hx
  split at hx
  · obtain ⟨p, hp, hpx⟩ := List.mem_map.1 hx
    by_cases h : p.1 = k
    · simp only [if_pos h] at hpx
      exact Or.inl hpx.symm
    · simp only [if_neg h] at hpx
      exact Or.inr (hpx ▸ hp)
  · rcases List.mem_append.1 hx with h | h
    · exact Or.inr h
    · simp only [List.mem_singleton] at h
      exact Or.inl h

theorem mem_keys_odInsert {α : Type} {m : List (String × α)} {k : String} {v : α}
    {a : String} (ha : a ∈ keys (odInsert m k v)) : a = k ∨ a ∈ keys m := by
  obtain ⟨x, hx, hxa⟩ := List.mem_map.1 ha
  rcases mem_odInsert hx with h | h
  · subst h
    exact Or.inl hxa.symm
  · exact Or.inr (hxa ▸ List.mem_map_of_mem Prod.fst h)

theorem lookup_eq_none_iff {α : Type} (m : List (String × α)) (k : String) :
    m.lookup k = none ↔ k ∉ keys m := by
  induction m with
  | nil => simp [keys]
  | cons p rest ih =>
      obtain ⟨a, b⟩ := p
      by_cases h : k = a
      · subst h
        simp [List.lookup, keys]
      · simp [List.lookup, beq_false_of_ne h, keys, h, ih]

theorem lookup_mem {α : Type} {m : List (String × α)} {k : String} {v : α}
    (h : m.lookup k = some v) : (k, v) ∈ m := by
  induction m with
  | nil => simp [List.lookup] at h
  | cons p rest ih =>
      obtain ⟨a, b⟩ := p
      by_cases hk : k = a
      · subst hk
        simp only [List.lookup, beq_self_eq_true] at h
        cases h
        exact List.mem_cons_self _ _
      · simp only [List.lookup, beq_false_of_ne hk] at h
        exact List.mem_cons_of_mem _ (ih h)

theorem lookup_mem_keys {α : Type} {m : List (String × α)} {k : String} {v : α}
    (h : m.lookup k = some v) : k ∈ keys m :=
  List.mem_map_of_mem Prod.fst (lookup_mem h)

/-! ### keysMatch lemmas -/

theorem keysMatch_lookup {m : Registry} {k : String} {v : Ty}
    (hm : keysMatchb m = true) (h : m.lookup k = some v) : tyName v = k := by
  have hmem := lookup_mem h
  have := (List.all_eq_true.1 hm) (k, v) hmem
  simpa using this

theorem keysMatch_append {m : Registry} {k : String} {v : Ty}
    (hm : keysMatchb m = true) (hv : tyName v = k) :
    keysMatchb (m ++ [(k, v)]) = true := by
  simp only [keysMatchb, List.all_append, Bool.and_eq_true]
  exact ⟨hm, by simp [hv]⟩

/-! ### Topological-order lemmas -/

theorem ordOK_cons (seen : List String) (p : String × Ty) (rest : Registry) :
    ordOKb seen (p :: rest) = true ↔
      ((∀ n ∈ memberTypeNames p.2, n ∈ seen) ∧ ordOKb (p.1 :: seen) rest = true) := by
  simp [ordOKb, List.all_eq_true]

theorem ordOK_append_single (xs : Registry) (seen : List String) (k : String) (v : Ty) :
    ordOKb seen (xs ++ [(k, v)]) = true ↔
      (ordOKb seen xs = true ∧ ∀ n ∈ memberTypeNames v, n ∈ keys xs ∨ n ∈ seen) := by
  induction xs generalizing seen with
  | nil =>
      rw [List.nil_append, ordOK_cons]
      simp [ordOKb, keys]
  | cons p rest ih =>
      rw [List.cons_append, ordOK_cons, ordOK_cons, ih (p.1 :: seen)]
      simp only [keys, List.map_cons, List.mem_cons]
      constructor
      · rintro ⟨h1, h2, h3⟩
        refine ⟨⟨h1, h2⟩, fun n hn => ?_⟩
        rcases h3 n hn with h | h | h <;> tauto
      · rintro ⟨⟨h1, h2⟩, h3⟩
        refine ⟨h1, h2, fun n hn => ?_⟩
        rcases h3 n hn with (h | h) | h <;> tauto

/-! ### parseMembers lemmas -/

theorem parseMembers_mem {types : Registry} {lfs : List String} {fields : List SField}
    {acc ms : List (String × SMember)}
    (h : parseMembers types lfs fields acc = some ms) :
    ∀ e ∈ ms, e ∈ acc ∨
      ∃ f ∈ fields, f.name = e.1 ∧ f.name ∉ lfs ∧
        e.2.1 = protected_identifier f.name ∧
        e.2.2.2 = truthyAttr f.lengthField ∧
        types.lookup (stripTypename f.typeName) = some e.2.2.1 := by
  induction fields generalizing acc with
  | nil =>
      simp only [parseMembers, Option.some.injEq] at h
      subst h
      exact fun e he => Or.inl he
  | cons f rest ih =>
      intro e he
      rw [parseMembers] at h
      by_cases hlf : f.name ∈ lfs
      · rw [if_pos hlf] at h
        rcases ih h e he with h' | ⟨g, hg, hrest⟩
        · exact Or.inl h'
        · exact Or.inr ⟨g, List.mem_cons_of_mem _ hg, hrest⟩
      · rw [if_neg hlf] at h
        split at h
        · exact Option.noConfusion h
        · rename_i mt hlook
          rcases ih h e he with h' | ⟨g, hg, hrest⟩
          · rcases mem_odInsert h' with he' | he'
            · subst he'
              exact Or.inr ⟨f, List.mem_cons_self _ _, rfl, hlf, rfl, rfl, hlook⟩
            · exact Or.inl he'
          · exact Or.inr ⟨g, List.mem_cons_of_mem _ hg, hrest⟩

/-! ### processRecord lemmas -/

theorem insertKey_eq (r : SchemaRec) (hk : r.recName ∉ idl_keywords) :
    insertKey r = r.recName := by
  cases r <;> simp_all [insertKey, SchemaRec.recName, protected_identifier]

/-- Reducing `processRecord` when the skip guard is true. -/
theorem processRecord_guard_true {types : Registry} {b : Bool} {r : SchemaRec}
    (hg : ((types.lookup r.recName).isSome || skipType r.recName) = true) :
    processRecord types b r = (types, b) := by
  unfold processRecord
  rw [if_pos hg]

/-- Reducing `processRecord` when the skip guard is false. -/
theorem processRecord_guard_false {types : Registry} {b : Bool} {r : SchemaRec}
    (hg : ((types.lookup r.recName).isSome || skipType r.recName) = false) :
    processRecord types b r =
      (match r with
       | .enumeratedType n d els =>
           let t := parseEnumeration n d els
           (odInsert types (tyName t) t, b)
       | .opaqueType n d =>
           let t := Ty.opaqueType n d
           (odInsert types (tyName t) t, b)
       | .structuredType n d fields =>
           match parseStructured n d fields types with
           | none => (types, false)
           | some t => (odInsert types (tyName t) t, b)) := by
  unfold processRecord
  rw [if_neg (by rw [hg]; simp)]
  cases r <;> rfl

theorem processRecord_enum_red {types : Registry} {b : Bool} {n d : String}
    {els : List (String × String)}
    (hg : ((types.lookup (SchemaRec.enumeratedType n d els).recName).isSome ||
        skipType (SchemaRec.enumeratedType n d els).recName) = false) :
    processRecord types b (.enumeratedType n d els) =
      (odInsert types (tyName (parseEnumeration n d els)) (parseEnumeration n d els), b) := by
  rw [processRecord_guard_false hg]

theorem processRecord_opaqueType_red {types : Registry} {b : Bool} {n d : String}
    (hg : ((types.lookup (SchemaRec.opaqueType n d).recName).isSome ||
        skipType (SchemaRec.opaqueType n d).recName) = false) :
    processRecord types b (.opaqueType n d) =
      (odInsert types (tyName (Ty.opaqueType n d)) (Ty.opaqueType n d), b) := by
  rw [processRecord_guard_false hg]

theorem processRecord_struct_red {types : Registry} {b : Bool} {n d : String}
    {fields : List SField}
    (hg : ((types.lookup (SchemaRec.structuredType n d fields).recName).isSome ||
        skipType (SchemaRec.structuredType n d fields).recName) = false) :
    processRecord types b (.structuredType n d fields) =
      (match parseStructured n d fields types with
       | none => (types, false)
       | some t => (odInsert types (tyName t) t, b)) := by
  rw [processRecord_guard_false hg]

/-- What one loop body does: either the registry is untouched (record
already present, excluded, or deferred), or the parsed type is inserted
under its own name via `odInsert`, the record was not excluded, its raw
name was not yet a key, and (on a key-consistent registry) all its
member-type names were already keys. -/
theorem processRecord_eq (types : Registry) (b : Bool) (r : SchemaRec) :
    (processRecord types b r).1 = types ∨
    ∃ t, processRecord types b r = (odInsert types (tyName t) t, b) ∧
      tyName t = insertKey r ∧ skipType r.recName = false ∧
      types.lookup r.recName = none ∧
      (keysMatchb types = true → ∀ n ∈ memberTypeNames t, n ∈ keys types) := by
  by_cases hg : ((types.lookup r.recName).isSome || skipType r.recName) = true
  · left
    rw [processRecord_guard_true hg]
  · have hg' : ((types.lookup r.recName).isSome || skipType r.recName) = false := by
      cases h : ((types.lookup r.recName).isSome || skipType r.recName) with
      | true => exact absurd h hg
      | false => rfl
    obtain ⟨h1, h2⟩ := Bool.or_eq_false_iff.mp hg'
    have hlook : types.lookup r.recName = none := by
      cases hl : types.lookup r.recName with
      | none => rfl
      | some v => rw [hl] at h1; simp at h1
    cases r with
    | enumeratedType n d els =>
        right
        refine ⟨parseEnumeration n d els, ?_, rfl, h2, hlook, ?_⟩
        · rw [processRecord_enum_red hg']
        · intro _ n' hn'
          simp [parseEnumeration, memberTypeNames] at hn'
    | opaqueType n d =>
        right
        refine ⟨Ty.opaqueType n d, ?_, rfl, h2, hlook, ?_⟩
        · rw [processRecord_opaqueType_red hg']
        · intro _ n' hn'
          simp [memberTypeNames] at hn'
    | structuredType n d fields =>
        cases hp : parseStructured n d fields types with
        | none =>
            left
            rw [processRecord_struct_red hg', hp]
        | some t =>
            right
            obtain ⟨ms, hms, ht⟩ := Option.map_eq_some'.mp hp
            refine ⟨t, ?_, ?_, h2, hlook, ?_⟩
            · rw [processRecord_struct_red hg', hp]
            · rw [← ht]
              rfl
            · intro hm n' hn'
              rw [← ht] at hn'
              simp only [memberTypeNames, List.mem_map] at hn'
              obtain ⟨e, he, hne⟩ := hn'
              rcases parseMembers_mem hms e he with h' | ⟨f, _, _, _, _, _, hlk⟩
              · simp at h'
              · rw [← hne, keysMatch_lookup hm hlk]
                exact lookup_mem_keys hlk

theorem processRecord_fst_keys (types : Registry) (b : Bool) (r : SchemaRec) :
    ∀ a ∈ keys (processRecord types b r).1,
      a ∈ keys types ∨ (skipType r.recName = false ∧ a = insertKey r) := by
  intro a ha
  rcases processRecord_eq types b r with h | ⟨t, heq, hkey, hskip, _, _⟩
  · rw [h] at ha
    exact Or.inl ha
  · rw [heq] at ha
    rcases mem_keys_odInsert ha with h' | h'
    · exact Or.inr ⟨hskip, h'.trans hkey⟩
    · exact Or.inl h'

theorem processRecord_grows (types : Registry) (b : Bool) (r : SchemaRec)
    (hk : r.recName ∉ idl_keywords) :
    types <+: (processRecord types b r).1 := by
  rcases processRecord_eq types b r with h | ⟨t, heq, hkey, _, hlook, _⟩
  · rw [h]
  · have hfresh : types.lookup (tyName t) = none := by
      rw [hkey, insertKey_eq r hk]
      exact hlook
    have h1 : (processRecord types b r).1 = types ++ [(tyName t, t)] := by
      rw [heq]
      exact odInsert_of_fresh _ _ _ hfresh
    rw [h1]
    exact List.prefix_append _ _

theorem processRecord_regInv (types : Registry) (b : Bool) (r : SchemaRec)
    (hk : r.recName ∉ idl_keywords)
    (hm : keysMatchb types = true) (ho : ordOKb [] types = true) :
    keysMatchb (processRecord types b r).1 = true ∧
      ordOKb [] (processRecord types b r).1 = true := by
  rcases processRecord_eq types b r with h | ⟨t, heq, hkey, _, hlook, hmem⟩
  · rw [h]
    exact ⟨hm, ho⟩
  · have hfresh : types.lookup (tyName t) = none := by
      rw [hkey, insertKey_eq r hk]
      exact hlook
    have h1 : (processRecord types b r).1 = types ++ [(tyName t, t)] := by
      rw [heq]
      exact odInsert_of_fresh _ _ _ hfresh
    rw [h1]
    refine ⟨keysMatch_append hm rfl, ?_⟩
    rw [ordOK_append_single]
    exact ⟨ho, fun n hn => Or.inl (hmem hm n hn)⟩

/-! ### One full pass -/

theorem foldPass_grows (records : List SchemaRec) :
    ∀ (types : Registry) (b : Bool), kwFree records →
      types <+: (records.foldl passStep (types, b)).1 := by
  induction records with
  | nil =>
      intro types b _
      exact List.prefix_refl _
  | cons r rest ih =>
      intro types b hkf
      rw [List.foldl_cons]
      have h1 := processRecord_grows types b r (hkf r (List.mem_cons_self _ _))
      have h2 := ih (processRecord types b r).1 (processRecord types b r).2
        (fun r' hr' => hkf r' (List.mem_cons_of_mem _ hr'))
      exact h1.trans (by simpa [passStep, Prod.mk.eta] using h2)

theorem foldPass_regInv (records : List SchemaRec) :
    ∀ (types : Registry) (b : Bool), kwFree records →
      keysMatchb types = true → ordOKb [] types = true →
      keysMatchb (records.foldl passStep (types, b)).1 = true ∧
        ordOKb [] (records.foldl passStep (types, b)).1 = true := by
  induction records with
  | nil =>
      intro types b _ hm ho
      exact ⟨hm, ho⟩
  | cons r rest ih =>
      intro types b hkf hm ho
      rw [List.foldl_cons]
      have h1 := processRecord_regInv types b r (hkf r (List.mem_cons_self _ _)) hm ho
      have h2 := ih (processRecord types b r).1 (processRecord types b r).2
        (fun r' hr' => hkf r' (List.mem_cons_of_mem _ hr')) h1.1 h1.2
      simpa [passStep, Prod.mk.eta] using h2

theorem keyOrig_mono {l l' : List SchemaRec} {t : Registry}
    (h : keyOrig l t) (hsub : ∀ r ∈ l, r ∈ l') : keyOrig l' t := by
  intro k hk
  rcases h k hk with h' | ⟨r, hr, hrest⟩
  · exact Or.inl h'
  · exact Or.inr ⟨r, hsub r hr, hrest⟩

theorem foldPass_keyOrig (L : List SchemaRec) :
    ∀ (l : List SchemaRec) (types : Registry) (b : Bool),
      (∀ r ∈ l, r ∈ L) → keyOrig L types →
      keyOrig L (l.foldl passStep (types, b)).1 := by
  intro l
  induction l with
  | nil =>
      intro types b _ h
      exact h
  | cons r rest ih =>
      intro types b hsub h
      rw [List.foldl_cons]
      have h1 : keyOrig L (processRecord types b r).1 := by
        intro k hk
        rcases processRecord_fst_keys types b r k hk with h' | ⟨hskip, hkey⟩
        · exact h k h'
        · exact Or.inr ⟨r, hsub r (List.mem_cons_self _ _), hskip, hkey⟩
      have h2 := ih (processRecord types b r).1 (processRecord types b r).2
        (fun r' hr' => hsub r' (List.mem_cons_of_mem _ hr')) h1
      simpa [passStep, Prod.mk.eta] using h2

/-! ### The fixpoint loop -/

theorem resolveAux_grows (records : List SchemaRec) (hkf : kwFree records) :
    ∀ (fuel : Nat) (types R : Registry),
      resolveAux fuel records types = some R → types <+: R := by
  intro fuel
  induction fuel with
  | zero =>
      intro types R h
      exact Option.noConfusion h
  | succ n ih =>
      intro types R h
      simp only [resolveAux] at h
      split at h
      · cases h
        exact foldPass_grows records types true hkf
      · exact (foldPass_grows records types true hkf).trans (ih _ R h)

theorem resolveAux_regInv (records : List SchemaRec) (hkf : kwFree records) :
    ∀ (fuel : Nat) (types R : Registry),
      keysMatchb types = true → ordOKb [] types = true →
      resolveAux fuel records types = some R →
      keysMatchb R = true ∧ ordOKb [] R = true := by
  intro fuel
  induction fuel with
  | zero =>
      intro types R _ _ h
      exact Option.noConfusion h
  | succ n ih =>
      intro types R hm ho h
      simp only [resolveAux] at h
      have hinv := foldPass_regInv records types true hkf hm ho
      split at h
      · cases h
        exact hinv
      · exact ih _ R hinv.1 hinv.2 h

theorem resolveAux_keyOrig (records : List SchemaRec) :
    ∀ (fuel : Nat) (types R : Registry), keyOrig records types →
      resolveAux fuel records types = some R → keyOrig records R := by
  intro fuel
  induction fuel with
  | zero =>
      intro types R _ h
      exact Option.noConfusion h
  | succ n ih =>
      intro types R hko h
      simp only [resolveAux] at h
      have hk1 := foldPass_keyOrig records records types true (fun r hr => hr) hko
      split at h
      · cases h
        exact hk1
      · exact ih _ R hk1 h

/-! ### Facts about the seeded registry -/

theorem seed_keys : keys seedTypes = builtin_types := by decide

theorem seed_keysMatch : keysMatchb seedTypes = true := by decide

theorem seed_ordOK : ordOKb [] seedTypes = true := by decide

/-! ### String-rendering lemmas -/

theorem struct_fold_members (ms : List (String × SMember)) (s : String) :
    ms.foldl (fun acc m => acc ++ memberLine m) s = s ++ concatMapStr memberLine ms := by
  induction ms generalizing s with
  | nil => simp [concatMapStr]
  | cons x rest ih => simp [concatMapStr, ih, String.append_assoc]

theorem enum_fold_labels (l : List (String × String)) (s : String) :
    l.foldl (fun acc e => acc ++ "\t\t" ++ protected_identifier e.1 ++ ", \n") s =
      s ++ concatMapStr (fun lab => "\t\t" ++ lab ++ ", \n")
        (l.map (fun e => protected_identifier e.1)) := by
  induction l generalizing s with
  | nil => simp [concatMapStr]
  | cons x rest ih =>
      rw [List.foldl_cons, ih]
      simp [concatMapStr, String.append_assoc]

theorem typedefIdl_enum (n d : String) (l : List (String × String)) :
    typedefIdl (Ty.enumeration n d l) =
      some ((("\tenum " ++ n ++ " \x7b\n") ++
        concatMapStr (fun lab => "\t\t" ++ lab ++ ", \n")
          (enumCaseLabels (Ty.enumeration n d l))).dropRight 3 ++ "\n\t\x7d;") := by
  simp only [typedefIdl, enumCaseLabels]
  rw [enum_fold_labels l "", String.empty_append]
  exact rfl

theorem typedefIdl_struct (n d : String) (ms : List (String × SMember)) :
    typedefIdl (Ty.structured n d ms) =
      some ("\t struct " ++ n ++ " \x7b\n" ++ concatMapStr memberLine ms ++ "\t\x7d;") := by
  simp [typedefIdl, struct_fold_members]

/-! ### OrderedDict construction from duplicate-free keys -/

theorem odFold_of_nodup {α : Type} (l : List (String × α)) :
    ∀ acc : List (String × α), (keys acc ++ l.map Prod.fst).Nodup →
      l.foldl (fun a e => odInsert a e.1 e.2) acc = acc ++ l := by
  induction l with
  | nil =>
      intro acc _
      simp
  | cons e rest ih =>
      intro acc h
      rw [List.foldl_cons]
      have hdisj := List.disjoint_of_nodup_append h
      have hfresh : acc.lookup e.1 = none := by
        rw [lookup_eq_none_iff]
        intro hmem
        exact hdisj hmem (List.mem_cons_self _ _)
      rw [odInsert_of_fresh _ _ _ hfresh]
      have h2 : (keys (acc ++ [e]) ++ rest.map Prod.fst).Nodup := by
        simpa [keys, List.append_assoc] using h
      rw [ih (acc ++ [e]) h2]
      simp

theorem enumElems_of_nodup (n : String) (l : List (String × String))
    (h : (l.map (fun e => n ++ "_" ++ e.1)).Nodup) :
    enumElems n l = l.map (fun e => (n ++ "_" ++ e.1, e.2)) := by
  have h1 : enumElems n l =
      (l.map (fun e => (n ++ "_" ++ e.1, e.2))).foldl (fun a e => odInsert a e.1 e.2) [] := by
    rw [List.foldl_map]
    rfl
  have h2 : (keys ([] : List (String × String)) ++
      (l.map (fun e => (n ++ "_" ++ e.1, e.2))).map Prod.fst).Nodup := by
    simpa [keys, List.map_map, Function.comp] using h
  rw [h1, odFold_of_nodup _ [] h2]
  simp

/-! ### Remaining claim theorems -/

/-- C1 (amended): for every input in which no record name is an IDL
keyword, whenever the resolver terminates the returned registry is in
topological order: every structured entry's member-type names occur as
earlier keys.  (The unamended claim fails: see the counterexample.) -/
theorem C1_topo_order (records : List SchemaRec) (fuel : Nat) (R : Registry)
    (hk : kwFree records)
    (hres : parseTypeDefinitions records fuel = some R) :
    ordOKb [] R = true :=
  (resolveAux_regInv records hk fuel seedTypes R seed_keysMatch seed_ordOK hres).2

theorem C1_topo_order_witness :
    ordOKb [] ((parseTypeDefinitions recsC1w 2).getD []) = true :=
  C1_topo_order recsC1w 2 _ (by unfold kwFree; decide) rfl

/-- C9 (amended): for every input in which no record name is an IDL
keyword, the registry only grows: the state before any pass, and the
state at the start of any suffix of the run, is a prefix of every later
state, so an inserted entry keeps its position, key and value for the
rest of the run.  (The unamended claim fails: see the counterexample.) -/
theorem C9_registry_grows (records : List SchemaRec) (hk : kwFree records) :
    (∀ types : Registry, types <+: (runPass records types).1) ∧
    (∀ (fuel : Nat) (types R : Registry),
      resolveAux fuel records types = some R → types <+: R) :=
  ⟨fun types => foldPass_grows records types true hk,
   fun fuel types R h => resolveAux_grows records hk fuel types R h⟩

theorem C9_registry_grows_witness :
    seedTypes <+: (runPass recsC9w seedTypes).1 ∧
    seedTypes <+: ((resolveAux 2 recsC9w seedTypes).getD []) :=
  ⟨(C9_registry_grows recsC9w (by unfold kwFree; decide)).1 seedTypes,
   (C9_registry_grows recsC9w (by unfold kwFree; decide)).2 2 seedTypes _ rfl⟩

/-- C5: a record is excluded exactly when its name is a builtin, in the
fixed exclusion list, contains the substring "Test", or ends with
"NodeId"; and on any terminating run every registry key apart from the
seeded builtins is the insertion key of some non-excluded record, so
excluded records are never inserted (and, the emitter walking only the
registry, never rendered). -/
theorem C5_exclusion (records : List SchemaRec) (fuel : Nat) (R : Registry)
    (hres : parseTypeDefinitions records fuel = some R) :
    (∀ n : String, skipType n = true ↔
      (n ∈ builtin_types ∨ n ∈ skip_types ∨
        strContainsSub n "Test" = true ∨ strEndsWith n "NodeId" = true)) ∧
    ∀ k ∈ keys R, k ∈ builtin_types ∨
      ∃ r ∈ records, skipType r.recName = false ∧ k = insertKey r := by
  constructor
  · intro n
    unfold skipType
    split_ifs with h1 h2 h3 h4 <;> simp_all
  · exact resolveAux_keyOrig records fuel seedTypes R
      (fun k hk => Or.inl (by rwa [seed_keys] at hk)) hres

theorem C5_exclusion_witness :
    (skipType "ColorTest" = true ↔
      ("ColorTest" ∈ builtin_types ∨ "ColorTest" ∈ skip_types ∨
        strContainsSub "ColorTest" "Test" = true ∨
        strEndsWith "ColorTest" "NodeId" = true)) ∧
    ("Color" ∈ builtin_types ∨
      ∃ r ∈ recsC5w, skipType r.recName = false ∧ "Color" = insertKey r) :=
  ⟨(C5_exclusion recsC5w 1 _ rfl).1 "ColorTest",
   (C5_exclusion recsC5w 1 _ rfl).2 "Color" (by decide)⟩

/-- C6: when a structured record's members resolve, (1) every field
whose name is some field's truthy LengthField reference is elided from
the member dict, (2) every member stems from a non-elided field, keeps
its sanitized name, is marked isArray exactly when the field declared a
truthy LengthField, and carries the registry type looked up under its
stripped type name, (3) the StructType built is exactly these members,
and (4) the emitted declaration renders each member with `memberLine`:
`ListOf<MemberType> <MemberName>` when isArray, `<MemberType>
<MemberName>` otherwise. -/
theorem C6_members (fields : List SField) (types : Registry)
    (ms : List (String × SMember))
    (h : parseMembers types (lengthFieldRefs fields) fields [] = some ms) :
    (∀ f ∈ fields, f.name ∈ lengthFieldRefs fields → f.name ∉ keys ms) ∧
    (∀ e ∈ ms, ∃ f ∈ fields, f.name = e.1 ∧ f.name ∉ lengthFieldRefs fields ∧
      e.2.1 = protected_identifier f.name ∧ e.2.2.2 = truthyAttr f.lengthField ∧
      types.lookup (stripTypename f.typeName) = some e.2.2.1) ∧
    (∀ n d, parseStructured n d fields types =
      some (Ty.structured (protected_identifier n) d ms)) ∧
    (∀ n d, typedefIdl (Ty.structured n d ms) =
      some ("\t struct " ++ n ++ " \x7b\n" ++ concatMapStr memberLine ms ++ "\t\x7d;")) := by
  refine ⟨?_, ?_, ?_, ?_⟩
  · intro f hf hlf hkey
    obtain ⟨e, he, hea⟩ := List.mem_map.1 hkey
    rcases parseMembers_mem h e he with h' | ⟨g, _, hg1, hg2, _⟩
    · simp at h'
    · exact hg2 (by rw [hg1, hea]; exact hlf)
  · intro e he
    rcases parseMembers_mem h e he with h' | h'
    · simp at h'
    · exact h'
  · intro n d
    simp [parseStructured, h]
  · intro n d
    exact typedefIdl_struct n d ms

theorem C6_members_witness :
    (("NoOfValues" : String) ∉ keys msC6w) ∧
    typedefIdl (Ty.structured "T" "" msC6w) =
      some ("\t struct T \x7b\n" ++ concatMapStr memberLine msC6w ++ "\t\x7d;") :=
  ⟨(C6_members fieldsC6w seedTypes msC6w rfl).1
      ⟨"NoOfValues", "opc:Int32", none⟩ (by decide) (by decide),
   (C6_members fieldsC6w seedTypes msC6w rfl).2.2.2 "T" ""⟩

theorem enumCaseLabels_of_nodup (name d : String) (l : List (String × String))
    (hl : (l.map (fun e => name ++ "_" ++ e.1)).Nodup) :
    enumCaseLabels (parseEnumeration name d l) =
      l.map (fun e => protected_identifier (name ++ "_" ++ e.1)) := by
  simp only [parseEnumeration, enumCaseLabels]
  rw [enumElems_of_nodup name l hl, List.map_map]
  rfl

/-- C7 (amended): for an enumeration record whose qualified element
names are pairwise distinct, the emitted case-label list is exactly the
independently sanitized qualified names `TypeName_ElementName`, one per
declared element and in declaration order; and the emitted declaration
text is fully determined by the element names — the schema's integer
values never influence it.  (The unamended claim fails on duplicate
element names: see the counterexample.) -/
theorem C7_enum_labels (name d : String) (els : List (String × String))
    (hnd : (els.map (fun e => name ++ "_" ++ e.1)).Nodup) :
    enumCaseLabels (parseEnumeration name d els) =
      els.map (fun e => protected_identifier (name ++ "_" ++ e.1)) ∧
    (enumCaseLabels (parseEnumeration name d els)).length = els.length ∧
    typedefIdl (parseEnumeration name d els) =
      some ((("\tenum " ++ protected_identifier name ++ " \x7b\n") ++
        concatMapStr (fun lab => "\t\t" ++ lab ++ ", \n")
          (enumCaseLabels (parseEnumeration name d els))).dropRight 3 ++ "\n\t\x7d;") ∧
    (∀ els' : List (String × String), els'.map Prod.fst = els.map Prod.fst →
      typedefIdl (parseEnumeration name d els') = typedefIdl (parseEnumeration name d els)) := by
  refine ⟨enumCaseLabels_of_nodup name d els hnd, ?_, ?_, ?_⟩
  · rw [enumCaseLabels_of_nodup name d els hnd]
    exact List.length_map _ _
  · exact typedefIdl_enum (protected_identifier name) d (enumElems name els)
  · intro els' hfst
    have h1 : els'.map (fun e => name ++ "_" ++ e.1) =
        (els'.map Prod.fst).map (fun a => name ++ "_" ++ a) := by
      rw [List.map_map]
      rfl
    have h2 : els.map (fun e => name ++ "_" ++ e.1) =
        (els.map Prod.fst).map (fun a => name ++ "_" ++ a) := by
      rw [List.map_map]
      rfl
    have hnd' : (els'.map (fun e => name ++ "_" ++ e.1)).Nodup := by
      rw [h1, hfst, ← h2]
      exact hnd
    have h3 : els'.map (fun e => protected_identifier (name ++ "_" ++ e.1)) =
        (els'.map Prod.fst).map (fun a => protected_identifier (name ++ "_" ++ a)) := by
      rw [List.map_map]
      rfl
    have h4 : els.map (fun e => protected_identifier (name ++ "_" ++ e.1)) =
        (els.map Prod.fst).map (fun a => protected_identifier (name ++ "_" ++ a)) := by
      rw [List.map_map]
      rfl
    have hlabs : enumCaseLabels (Ty.enumeration (protected_identifier name) d
          (enumElems name els')) =
        enumCaseLabels (Ty.enumeration (protected_identifier name) d (enumElems name els)) := by
      show enumCaseLabels (parseEnumeration name d els') =
        enumCaseLabels (parseEnumeration name d els)
      rw [enumCaseLabels_of_nodup name d els' hnd', enumCaseLabels_of_nodup name d els hnd,
        h3, h4, hfst]
    show typedefIdl (Ty.enumeration (protected_identifier name) d (enumElems name els')) =
      typedefIdl (Ty.enumeration (protected_identifier name) d (enumElems name els))
    rw [typedefIdl_enum, typedefIdl_enum, hlabs]

theorem C7_enum_labels_witness :
    enumCaseLabels (parseEnumeration "Color" "" elsC7w) =
      ["Color_Red", "Color_Green", "Color_Blue"] ∧
    (enumCaseLabels (parseEnumeration "Color" "" elsC7w)).length = 3 := by
  have h := C7_enum_labels "Color" "" elsC7w (by decide)
  exact ⟨h.1.trans (by decide), h.2.1.trans rfl⟩
